import Mathlib

/-!
Verification of the shared CSV-ledger contract of the ozcryptonews scrapers.

The development shallowly embeds the ledger-facing slice of the source
scripts (`coindesk.py`, `cryptonews.py`, `austrac.py`, `asic.py`, `dfcrc.py`,
`cointelegraph.py`, `telegrambotsender.py`): pure list/string functions stand
in for the Python functions, the CSV file on disk is an `Option (List Row)`
(`none` = missing file, `some []` = existing empty file), and external
effects (HTTP fetches, the HTML/date parsers, Telegram delivery) enter as
explicit inputs or oracles.
-/

namespace OzCrypto

/-! ## Timestamps

Python `datetime` objects, at the second granularity used by every script
(all serializers in the repo use `strftime` patterns without microseconds).
Comparison of aware same-offset datetimes in Python is lexicographic on the
fields, which `Dt.leb` mirrors. -/

structure Dt where
  year : Nat
  month : Nat
  day : Nat
  hour : Nat
  minute : Nat
  second : Nat
deriving DecidableEq, Repr

def Dt.fields (d : Dt) : List Nat :=
  [d.year, d.month, d.day, d.hour, d.minute, d.second]

/-- Lexicographic `≤` on lists of naturals. -/
def lexLe : List Nat → List Nat → Bool
  | [], _ => true
  | _ :: _, [] => false
  | a :: as, b :: bs =>
      if a < b then true
      else if b < a then false
      else lexLe as bs

theorem lexLe_total : ∀ xs ys : List Nat, lexLe xs ys = true ∨ lexLe ys xs = true := by
  intro xs
  induction xs with
  | nil => intro ys; left; rfl
  | cons a as ih =>
    intro ys
    cases ys with
    | nil => right; rfl
    | cons b bs =>
      by_cases hab : a < b
      · left; simp [lexLe, hab]
      · by_cases hba : b < a
        · right; simp [lexLe, hba, hab]
        · have := ih bs
          cases this with
          | inl h => left; simp [lexLe, hab, hba, h]
          | inr h => right; simp [lexLe, hab, hba, h]

theorem lexLe_trans : ∀ xs ys zs : List Nat,
    lexLe xs ys = true → lexLe ys zs = true → lexLe xs zs = true := by
  intro xs
  induction xs with
  | nil => intro ys zs _ _; rfl
  | cons a as ih =>
    intro ys zs h₁ h₂
    cases ys with
    | nil => simp [lexLe] at h₁
    | cons b bs =>
      cases zs with
      | nil => simp [lexLe] at h₂
      | cons c cs =>
        simp only [lexLe] at h₁ h₂ ⊢
        split_ifs at h₁ h₂ ⊢ with hab hba hbc hcb hac hca
        all_goals first
          | rfl
          | omega
          | (exact ih bs cs h₁ h₂)

/-- `a ≤ b` on datetimes, as Python compares aware UTC datetimes. -/
def Dt.leb (a b : Dt) : Bool := lexLe a.fields b.fields

theorem Dt.leb_total (a b : Dt) : a.leb b = true ∨ b.leb a = true :=
  lexLe_total a.fields b.fields

theorem Dt.leb_trans {a b c : Dt} (h₁ : a.leb b = true) (h₂ : b.leb c = true) :
    a.leb c = true :=
  lexLe_trans a.fields b.fields c.fields h₁ h₂

/-! ## Serialization -/

/-- Zero-padding to two digits, as `strftime` does for `%m %d %H %M %S`. -/
def pad2 (n : Nat) : String :=
  if n < 10 then "0" ++ toString n else toString n

/-- Zero-padding to four digits, as `strftime` does for `%Y`. -/
def pad4 (n : Nat) : String :=
  if n < 10 then "000" ++ toString n
  else if n < 100 then "00" ++ toString n
  else if n < 1000 then "0" ++ toString n
  else toString n

/-- `strftime('%Y-%m-%dT%H:%M:%S+00:00')` — the serialization used by
`dfcrc.py`, `web3au.py`, `asic.py`, `cointelegraph.py` and (via
`isoformat()` on an aware UTC datetime) `coindesk.py` and `austrac.py`. -/
def isoUtc (d : Dt) : String :=
  pad4 d.year ++ "-" ++ pad2 d.month ++ "-" ++ pad2 d.day ++ "T" ++
    pad2 d.hour ++ ":" ++ pad2 d.minute ++ ":" ++ pad2 d.second ++ "+00:00"

/-- `strftime('%Y-%m-%dT%H:%M:%SZ')` — the serialization used by
`cryptonews.py` (`scrape_page_with_selenium`, line 178). -/
def isoZ (d : Dt) : String :=
  pad4 d.year ++ "-" ++ pad2 d.month ++ "-" ++ pad2 d.day ++ "T" ++
    pad2 d.hour ++ ":" ++ pad2 d.minute ++ ":" ++ pad2 d.second ++ "Z"

/-- Decides membership of a string in the language of the spec's regular
expression `^\d{4}-\d{2}-\d{2}T\d{2}:\d{2}:\d{2}\+00:00$` (a fixed-width
pattern, so a direct shape match on the character list). -/
def matchesSpecDateRe (s : String) : Bool :=
  match s.toList with
  | [y1, y2, y3, y4, '-', m1, m2, '-', d1, d2, 'T',
     h1, h2, ':', n1, n2, ':', s1, s2, '+', '0', '0', ':', '0', '0'] =>
      [y1, y2, y3, y4, m1, m2, d1, d2, h1, h2, n1, n2, s1, s2].all Char.isDigit
  | _ => false

/-! ## The ledger file

A CSV file is a list of rows, each row a list of string fields; `none`
models a missing file and `some []` an existing zero-byte file (the scripts
distinguish the two via `os.path.exists` / `os.path.getsize`). -/

abbrev Row := List String

abbrev CsvFile := Option (List Row)

/-- The fixed header row `['date', 'source', 'url', 'title', 'done']`
shared by every script. -/
def ledgerHeader : Row := ["date", "source", "url", "title", "done"]

/-- `csv.DictReader` field access: the value under column name `k` of `row`
given header `hdr` (`none` when the column is absent or the row is short,
matching `DictReader`'s `restval=None`). -/
def dictGet (hdr row : Row) (k : String) : Option String :=
  if k ∈ hdr then row.get? (hdr.indexOf k) else none

/-- Python `str.strip()`: drop whitespace from both ends. -/
def pyStrip (s : String) : String :=
  ⟨((s.toList.dropWhile Char.isWhitespace).reverse.dropWhile Char.isWhitespace).reverse⟩

/-- Python `str.lower()` on the ASCII range the scripts compare. -/
def lowerStr (s : String) : String := ⟨s.toList.map Char.toLower⟩

/-- One parsed ledger record (`ArticleRecord` of the spec). -/
structure Article where
  date : String
  source : String
  url : String
  title : String
  done : String
deriving DecidableEq, Repr

def Article.toRow (a : Article) : Row := [a.date, a.source, a.url, a.title, a.done]

def rowToArticle (r : Row) : Article :=
  { date := r.getD 0 "", source := r.getD 1 "", url := r.getD 2 ""
    title := r.getD 3 "", done := r.getD 4 "" }

/-- The `(source, url)` key of a raw ledger row (positions fixed by the
shared header). -/
def rowKey (r : Row) : String × String := (r.getD 1 "", r.getD 2 "")

/-- The `(source, url)` keys of the data rows of a file (the header row, if
present, carries no record). -/
def ledgerPairs (file : CsvFile) : List (String × String) :=
  ((file.getD []).filter (fun r => r ≠ ledgerHeader)).map rowKey

/-- A file that is a structurally valid ledger: missing, empty, or headed by
the shared header row. -/
def ledgerWF (file : CsvFile) : Prop :=
  file = none ∨ file = some [] ∨ ∃ rows, file = some (ledgerHeader :: rows)

/-! ## coindesk.py -/

/-- An extracted article as built by `extract_articles` in `coindesk.py`
(dict with keys `url`, `title`, `parsed_date`; the `dateutil` parse that
produced `parsed_date` is upstream of this model). -/
structure CArticle where
  url : String
  title : String
  pd : Dt
deriving DecidableEq, Repr

/-- The comparison used by `valid_articles.sort(key=lambda x: x['parsed_date'])`. -/
def cArtLe (a b : CArticle) : Prop := a.pd.leb b.pd = true

instance : DecidableRel cArtLe := fun a b => instDecidableEqBool (a.pd.leb b.pd) true

instance : IsTotal CArticle cArtLe := ⟨fun a b => Dt.leb_total a.pd b.pd⟩

instance : IsTrans CArticle cArtLe := ⟨fun _ _ _ => Dt.leb_trans⟩

/-- `valid_articles.sort(...)`: Python's stable sort, modeled by the equally
stable insertion sort. -/
def sortByDate (l : List CArticle) : List CArticle := List.insertionSort cArtLe l

/-- The per-row step of coindesk.py `load_existing_urls`: keep `row['url']`
when `row.get('source') == source_filter` and `row.get('url')` is truthy
(present and non-empty). -/
def loadRow (sourceFilter : String) (hdr r : Row) : Option String :=
  if dictGet hdr r "source" = some sourceFilter ∧ (dictGet hdr r "url").getD "" ≠ "" then
    dictGet hdr r "url"
  else none

/-- coindesk.py `load_existing_urls` (lines 46-72): collect the `url` of
every row whose `source` equals the filter; a missing or empty file, or a
file whose header lacks the `url`/`source` columns, yields the empty set
(the malformed-header case prints a warning and continues). -/
def load_existing_urls : CsvFile → String → List String
  | none, _ => []
  | some [], _ => []
  | some (hdr :: rows), sourceFilter =>
      if "url" ∈ hdr ∧ "source" ∈ hdr then rows.filterMap (loadRow sourceFilter hdr)
      else []

/-- The CSV row written for one article by coindesk.py `append_to_csv`
(`isoformat()` of the aware `parsed_date`; `done` starts empty). -/
def coindeskRow (sourceName : String) (a : CArticle) : Row :=
  [isoUtc a.pd, sourceName, a.url, a.title, ""]

/-- coindesk.py `append_to_csv` (lines 297-349): sort the batch by
`parsed_date`, return unchanged when the batch is empty (the function
returns before opening the file), otherwise open in append mode, write the
header first iff the file was missing or empty, then the sorted rows.
(The `valid_articles` date-presence filter is a no-op here: every modeled
article carries a parsed date.) -/
def append_to_csv (file : CsvFile) (batch : List CArticle) (sourceName : String) : CsvFile :=
  let sorted := sortByDate batch
  if sorted.isEmpty then file
  else
    let content := file.getD []
    some (content ++ (if content.isEmpty then [ledgerHeader] else [])
      ++ sorted.map (coindeskRow sourceName))

/-- Steps 4 of coindesk.py `__main__`: drop extracted items whose url is
falsy or already present, then items dated before 2025. -/
def coindeskNewArticles (existing : List String) (extracted : List CArticle) : List CArticle :=
  (extracted.filter (fun a => a.url ≠ "" ∧ a.url ∉ existing)).filter
    (fun a => 2025 ≤ a.pd.year)

/-- coindesk.py `__main__` (lines 353-423), from extraction onward: load the
existing URLs for `coindesk.com`, filter the extracted items, then append. -/
def coindeskRun (file : CsvFile) (extracted : List CArticle) : CsvFile :=
  let filtered := coindeskNewArticles (load_existing_urls file "coindesk.com") extracted
  if filtered.isEmpty then file else append_to_csv file filtered "coindesk.com"

/-! ## telegrambotsender.py

Delivery through the Telegram API is modeled by an oracle
`send : Nat → Bool` giving the success of the attempt for the row at each
index (`send_telegram_message` returns a boolean; exceptions are caught and
act like a `False` return). -/

def CHECK_MARK : String := "+"

instance : Inhabited Article := ⟨{ date := "", source := "", url := "", title := "", done := "" }⟩

/-- Whether the `process_csv` loop treats a row as new:
`str(row.get('done', '')).strip() != CHECK_MARK`. -/
def pendingB (a : Article) : Bool := pyStrip a.done != CHECK_MARK

/-- The indices of the rows for which `process_csv` attempts a delivery,
`i₀` being the index of the head row (each pending row is attempted,
whatever happened on earlier rows). -/
def attemptsFrom (i₀ : Nat) : List Article → List Nat
  | [] => []
  | a :: rest =>
      if pendingB a then i₀ :: attemptsFrom (i₀ + 1) rest
      else attemptsFrom (i₀ + 1) rest

/-- `rows_to_update_indices`: attempted rows whose delivery succeeded. -/
def markedIndices (send : Nat → Bool) (rows : List Article) : List Nat :=
  (attemptsFrom 0 rows).filter send

/-- The in-memory pass `all_rows_data[index]['done'] = CHECK_MARK` applied
to every marked index (i.e. to each pending row whose delivery succeeded). -/
def updateFrom (send : Nat → Bool) (i₀ : Nat) : List Article → List Article
  | [] => []
  | a :: rest =>
      (if pendingB a && send i₀ then { a with done := CHECK_MARK } else a)
        :: updateFrom send (i₀ + 1) rest

/-- telegrambotsender.py `process_csv` (lines 80-197): the resulting file
paired with whether this run wrote the file. A missing or empty file is
initialized with the header row; a header mismatch aborts without writing;
the full-file rewrite happens only when at least one row was marked. -/
def process_csv : CsvFile → (Nat → Bool) → CsvFile × Bool
  | none, _ => (some [ledgerHeader], true)
  | some [], _ => (some [ledgerHeader], true)
  | some (hdr :: rows), send =>
      if hdr ≠ ledgerHeader then (some (hdr :: rows), false)
      else if rows.isEmpty then (some (hdr :: rows), false)
      else if (markedIndices send (rows.map rowToArticle)).isEmpty then
        (some (hdr :: rows), false)
      else
        (some (ledgerHeader ::
          (updateFrom send 0 (rows.map rowToArticle)).map Article.toRow), true)

/-! ## Shared sort relation for (record, datetime) pairs

Several scripts keep the parsed datetime next to the would-be CSV record and
sort the batch by it before appending. -/

def sndLe (x y : Article × Dt) : Prop := x.2.leb y.2 = true

instance : DecidableRel sndLe := fun x y => instDecidableEqBool (x.2.leb y.2) true

instance : IsTotal (Article × Dt) sndLe := ⟨fun x y => Dt.leb_total x.2 y.2⟩

instance : IsTrans (Article × Dt) sndLe := ⟨fun _ _ _ => Dt.leb_trans⟩

/-! ## austrac.py -/

/-- A parsed RSS entry, fields as read by `main` in austrac.py: `link`,
`title`, `published_parsed` (already a parsed time tuple, `none` when
absent) and `summary`. The `mktime`/`fromtimestamp` round trip of
`format_date_iso` is abstracted into the entry's datetime. -/
structure RssEntry where
  link : String
  title : String
  summary : String
  published : Option Dt
deriving DecidableEq, Repr

/-- Python's `needle in hay` on strings: `needle` occurs as a contiguous
substring of `hay`. -/
def occursIn (needle : List Char) : List Char → Bool
  | [] => needle.isEmpty
  | c :: rest => needle.isPrefixOf (c :: rest) || occursIn needle rest

/-- Python's `needle in hay` lifted to `String`. -/
def strContains (hay needle : String) : Bool := occursIn needle.toList hay.toList

/-- austrac.py `check_match` (lines 165-191): case-insensitive substring
search of any keyword in title + ' ' + summary (keywords are lowercased at
load time, so the argument is assumed lowercase). -/
def check_match (title summary : String) (keywords : List String) : Bool :=
  let content := lowerStr title ++ " " ++ lowerStr summary
  keywords.any (fun kw => strContains content kw)

/-- austrac.py `load_existing_urls` (lines 64-117): create the file with the
header only when it does not exist; an existing file is read, and a header
missing the `url`/`source` columns (or an unreadable empty file) merely
prints a warning and yields the empty set. Returns the possibly-created file
and the URL set. -/
def austracLoad : CsvFile → CsvFile × List String
  | none => (some [ledgerHeader], [])
  | some [] => (some [], [])
  | some (hdr :: rows) =>
      if "url" ∈ hdr ∧ "source" ∈ hdr then
        (some (hdr :: rows),
          rows.filterMap (fun r =>
            match dictGet hdr r "source", dictGet hdr r "url" with
            | some s, some u => if s = "austrac.gov.au" ∧ u ≠ "" then some (pyStrip u) else none
            | _, _ => none))
      else (some (hdr :: rows), [])

/-- The per-entry step of austrac.py `main` (lines 262-316): skip on missing
url or date, skip known URLs, and keep keyword matches dated 2025 or later. -/
def austracItem (existing : List String) (keywords : List String) (e : RssEntry) :
    Option (Article × Dt) :=
  match e.published with
  | none => none
  | some d =>
      if pyStrip e.link = "" then none
      else if pyStrip e.link ∈ existing then none
      else if check_match e.title e.summary keywords then
        if d.year < 2025 then none
        else some (({ date := isoUtc d, source := "austrac.gov.au", url := pyStrip e.link,
                      title := pyStrip e.title, done := "" } : Article), d)
      else none

/-- austrac.py `main` (lines 234-352), from the feed onward: filter the
entries, sort the batch by date and append rows with no header (the header
is only ever written by `load_existing_urls` at creation time). -/
def austracRun (file : CsvFile) (entries : List RssEntry) (keywords : List String) : CsvFile :=
  let loadStep := austracLoad file
  let sorted := List.insertionSort sndLe (entries.filterMap (austracItem loadStep.2 keywords))
  if sorted.isEmpty then loadStep.1
  else some ((loadStep.1.getD []) ++ sorted.map (fun x => x.1.toRow))

/-! ## asic.py -/

/-- Match of the regex `/(\d{2})-(\d{3})mr` (ignorecase) at the head of the
character list, returning `(year_yy, article_num)`. -/
def mrPatAt : List Char → Option (Nat × Nat)
  | '/' :: a :: b :: '-' :: c :: d :: e :: m :: r :: _ =>
      if a.isDigit && b.isDigit && c.isDigit && d.isDigit && e.isDigit
          && (m == 'm' || m == 'M') && (r == 'r' || r == 'R') then
        some ((a.toNat - '0'.toNat) * 10 + (b.toNat - '0'.toNat),
          ((c.toNat - '0'.toNat) * 10 + (d.toNat - '0'.toNat)) * 10 + (e.toNat - '0'.toNat))
      else none
  | _ => none

/-- Leftmost match of `mrPatAt`, as `re.search` finds it. -/
def searchMrKey : List Char → Option (Nat × Nat)
  | [] => none
  | c :: rest =>
      match mrPatAt (c :: rest) with
      | some k => some k
      | none => searchMrKey rest

/-- asic.py `extract_sort_key_from_url` (lines 114-124): the
`(year, number)` pair parsed from an ASIC media-release URL, `(99, 9999)`
when the pattern is absent. -/
def extract_sort_key_from_url (url : String) : Nat × Nat :=
  (searchMrKey url.toList).getD (99, 9999)

/-- The outcome of `fetch_and_check_article_content_selenium` for one queued
URL: the extracted publication date (already serialized with the `+00:00`
pattern in the source; carried here as a datetime), whether any keyword
matched the page text, and the extracted title. -/
structure AsicPage where
  url : String
  dateIso : Option Dt
  kwFound : Bool
  title : String
deriving DecidableEq, Repr

/-- The comparison used by `sorted(list(urls_to_process), key=extract_sort_key_from_url)`:
Python tuples compare lexicographically. -/
def asicKeyLe (x y : AsicPage) : Prop :=
  (extract_sort_key_from_url x.url).1 < (extract_sort_key_from_url y.url).1
  ∨ ((extract_sort_key_from_url x.url).1 = (extract_sort_key_from_url y.url).1
      ∧ (extract_sort_key_from_url x.url).2 ≤ (extract_sort_key_from_url y.url).2)

instance : DecidableRel asicKeyLe := fun _ _ => instDecidableOr

/-- asic.py module level (lines 384-463): URLs are processed in URL-sort-key
order; a page is appended when a date was extracted, its year is at least
2000 + MIN_YEAR_YY = 2024, and a keyword matched (or no keywords were
configured); rows are appended in exactly that processing order — no sort by
date happens. -/
def asicBatch (pages : List AsicPage) (haveKeywords : Bool) : List (Article × Dt) :=
  (List.insertionSort asicKeyLe pages).filterMap (fun p =>
    match p.dateIso with
    | none => none
    | some d =>
        if 2000 + 24 ≤ d.year then
          if p.kwFound || !haveKeywords then
            some (({ date := isoUtc d, source := "asic.gov.au", url := p.url,
                     title := if p.title = "" then "Title not found" else p.title,
                     done := "" } : Article), d)
          else none
        else none)

/-! ## cryptonews.py -/

/-- One `div.article` container of a listing page, after the selector
lookups of `scrape_page_with_selenium`: absolute url, stripped title, and
the outcome of `datetime.strptime(date_text, '%B %d, %Y')` (`none` on
`ValueError`). -/
structure CnItem where
  url : String
  title : String
  parsed : Option Dt
deriving DecidableEq, Repr

/-- cryptonews.py `scrape_page_with_selenium` (lines 113-209), extraction
loop: items with an unparseable date are skipped, items dated before 2025
are skipped, the rest become records whose `date` is
`strftime('%Y-%m-%dT%H:%M:%SZ')`. The parsed datetime is kept alongside,
mirroring the later `pd.to_datetime` re-parse of that fixed format. -/
def scrape_page (items : List CnItem) : List (Article × Dt) :=
  items.filterMap (fun it =>
    match it.parsed with
    | none => none
    | some d =>
        if d.year < 2025 then none
        else some (({ date := isoZ d, source := "cryptonews.com.au", url := it.url,
                      title := it.title, done := "" } : Article), d))

/-- The per-page loop of cryptonews.py `__main__` (lines 227-244): each
scraped article is kept iff its url is not yet known, and the url is added
to the known set immediately (also deduplicating within the run). -/
def cnFilterNew (existing : List String) :
    List (Article × Dt) → List (Article × Dt) × List String
  | [] => ([], existing)
  | x :: rest =>
      if x.1.url ∈ existing then cnFilterNew existing rest
      else
        let step := cnFilterNew (x.1.url :: existing) rest
        (x :: step.1, step.2)

/-- The page loop of cryptonews.py `__main__`: pages are scraped in order
with the known-URL set threaded through. -/
def cnCollect (existing : List String) : List (List CnItem) → List (Article × Dt)
  | [] => []
  | page :: rest =>
      let step := cnFilterNew existing (scrape_page page)
      step.1 ++ cnCollect step.2 rest

/-- `temp_df.drop_duplicates(subset=['url'], keep='first')`. -/
def dropDupFirst : List (Article × Dt) → List String → List (Article × Dt)
  | [], _ => []
  | x :: rest, seen =>
      if x.1.url ∈ seen then dropDupFirst rest seen
      else x :: dropDupFirst rest (x.1.url :: seen)

/-- cryptonews.py `__main__` (lines 252-281): the rows handed to
`save_articles`, after within-run dedup, url-dedup, and the chronological
sort (the `dropna` on re-parsed dates is a no-op for this fixed format). -/
def cryptonewsBatch (existing : List String) (pages : List (List CnItem)) :
    List (Article × Dt) :=
  List.insertionSort sndLe (dropDupFirst (cnCollect existing pages) [])

/-! ## cointelegraph.py -/

def TITLE_KEYWORDS : List String := ["australia", "australian"]

/-- `any(keyword.lower() in title_lower for keyword in TITLE_KEYWORDS)`. -/
def titleHasKeyword (title : String) : Bool :=
  TITLE_KEYWORDS.any (fun kw => strContains (lowerStr title) kw)

/-- `unique_articles_by_url_dict[art['url']] = art` over a Python dict:
first-occurrence order of each url, latest value wins. -/
def ctDedupStep (acc : List CArticle) (a : CArticle) : List CArticle :=
  if acc.any (fun b => b.url = a.url) then
    acc.map (fun b => if b.url = a.url then a else b)
  else acc ++ [a]

def ctUniqueByUrl (arts : List CArticle) : List CArticle := arts.foldl ctDedupStep []

/-- cointelegraph.py `__main__` (lines 417-458): dedup by url, keep articles
that are not in the ledger, dated `MIN_ARTICLE_YEAR = 2025` or later, and
whose title holds a keyword; `append_to_csv` (lines 308-350) then sorts the
survivors by `parsed_date_utc` before writing them with the `+00:00`
serialization. -/
def cointelegraphBatch (existing : List String) (arts : List CArticle) : List CArticle :=
  let uniq := ctUniqueByUrl arts
  let chosen := uniq.filter (fun a =>
    a.url ∉ existing ∧ 2025 ≤ a.pd.year ∧ titleHasKeyword a.title = true)
  sortByDate chosen

/-! ## dfcrc.py -/

/-- The outcome on one `h3` heading of the date-in-title extraction of
`fetch_project_updates` (lines 136-149): the regex
`(\d{1,2} (Jan|...|Dec)[a-z]* \d{4})` finds a date-looking substring and
`dateutil` parses it; or it finds one that `dateutil` rejects (for example
`31 Feb 2025`); or it finds none. -/
inductive TitleDate where
  | parsed (d : Dt)
  | unparseable
  | absent
deriving DecidableEq, Repr

/-- One `h3` section of the DFCRC Acacia project page: the cleaned heading
text, the date-extraction outcome, and the first pdf link (with its cleaned
link text) of the following list, if any. -/
structure H3Item where
  title : String
  titleDate : TitleDate
  pdf : Option String
  pdfTitle : String
deriving DecidableEq, Repr

def PROJECT_URL : String := "https://dfcrc.com.au/projects-cbdc-acacia/"

/-- The characters after the first `://` marker, if one occurs. -/
def afterScheme : List Char → Option (List Char)
  | [] => none
  | c :: rest =>
      if [':', '/', '/'].isPrefixOf (c :: rest) then some (rest.drop 2)
      else afterScheme rest

/-- dfcrc.py `get_source_path`: `netloc + path` of the URL, with the
trailing slash of a non-root path stripped (none of the callers pass URLs
with a query or fragment, so this is everything after the scheme). -/
def get_source_path (url : String) : String :=
  let rest := (afterScheme url.toList).getD url.toList
  if rest.getLast? == some '/' && rest.dropLast.contains '/' then ⟨rest.dropLast⟩
  else ⟨rest⟩

/-- `os.path.basename(urlparse(pdf_link_found).path)`: the last component of
the URL path (the characters after the last `/`). -/
def urlBasename (url : String) : String :=
  ⟨(url.toList.reverse.takeWhile (fun c => c ≠ '/')).reverse⟩

/-- Lines 163-167: a bare `Update`/`Summary` heading is specialized with the
pdf link text. -/
def dfcrcTitle2 (it : H3Item) : String :=
  match it.pdf with
  | none => it.title
  | some _ =>
      if it.title = "Update" ∧ it.pdfTitle ≠ "" then "Update: " ++ it.pdfTitle
      else if it.title = "Summary" ∧ it.pdfTitle ≠ "" then "Summary: " ++ it.pdfTitle
      else it.title

/-- Lines 139-177: the date given to the record. A parsed title date is
used; otherwise, when a pdf was found, or when no pdf was found but the
(possibly specialized) heading holds `Meeting` or `Update`, the *current UTC
time* `now` is substituted; otherwise there is no date. -/
def dfcrcDate (now : Dt) (it : H3Item) (title2 : String) : Option Dt :=
  match it.titleDate with
  | .parsed d => some d
  | _ =>
      if it.pdf.isSome then some now
      else if strContains title2 "Meeting" || strContains title2 "Update" then some now
      else none

/-- Lines 184-192: the CSV title. -/
def dfcrcCsvTitle (it : H3Item) (title2 : String) : String :=
  match it.pdf with
  | some link =>
      if !(strContains title2 "Meeting" || strContains title2 "Update: "
            || strContains title2 "Summary: ") then
        "DFCRC Acacia PDF: " ++ urlBasename link
      else "DFCRC Acacia: " ++ title2
  | none => "DFCRC Acacia: " ++ title2

/-- dfcrc.py `fetch_project_updates` (lines 111-206): scan headings until
the stop heading, keep those matching the `Meeting`/`Update`/`Summary`
heuristic, and emit a record when a date (parsed or substituted) exists and
either a pdf was found or the heading holds `Meeting`. -/
def fetch_project_updates (now : Dt) : List H3Item → List (Article × Dt)
  | [] => []
  | it :: rest =>
      if it.title = "Previous IAG Material" then []
      else if strContains it.title "Meeting" || strContains it.title "Update"
              || strContains it.title "Summary" then
        let title2 := dfcrcTitle2 it
        match dfcrcDate now it title2 with
        | some d =>
            if it.pdf.isSome || strContains title2 "Meeting" then
              (({ date := isoUtc d, source := get_source_path PROJECT_URL,
                  url := it.pdf.getD PROJECT_URL, title := dfcrcCsvTitle it title2,
                  done := "" } : Article), d) :: fetch_project_updates now rest
            else fetch_project_updates now rest
        | none => fetch_project_updates now rest
      else fetch_project_updates now rest

/-- The duplicate filter of dfcrc.py `main` (lines 281-301): drop an item
whose (non-empty) url is seen, or whose `(title, date)` pair is seen; new
items extend both seen sets within the run. -/
def dfcrcDedup (seenUrls : List String) (seenTitleDates : List (String × String)) :
    List (Article × Dt) → List (Article × Dt)
  | [] => []
  | x :: rest =>
      if (x.1.url ≠ "" ∧ x.1.url ∈ seenUrls) ∨ (x.1.title, x.1.date) ∈ seenTitleDates then
        dfcrcDedup seenUrls seenTitleDates rest
      else
        x :: dfcrcDedup (x.1.url :: seenUrls) ((x.1.title, x.1.date) :: seenTitleDates) rest

/-- dfcrc.py `main` (lines 268-349), restricted to the project-updates
source (`fetch_media_releases` items enter the same way): the batch of rows
handed to `append_to_csv`, after the duplicate filter and the chronological
sort. -/
def dfcrcAppendBatch (now : Dt) (seenUrls : List String)
    (seenTitleDates : List (String × String)) (items : List H3Item) : List Article :=
  (List.insertionSort sndLe
    (dfcrcDedup seenUrls seenTitleDates (fetch_project_updates now items))).map (fun x => x.1)

/-! ## Observables used by the claims -/

/-- Whether a list of datetimes is non-decreasing (property `Sorting` of the
spec, checked on the dates of an append batch). -/
def datesNonDecreasing : List Dt → Bool
  | [] => true
  | [_] => true
  | a :: b :: rest => a.leb b && datesNonDecreasing (b :: rest)

/-! ## Concrete inputs for witnesses and counterexamples -/

/-- An extracted coindesk item appearing twice in one listing page. -/
def c1Item : CArticle := ⟨"https://www.coindesk.com/a", "A", ⟨2025, 5, 1, 0, 0, 0⟩⟩

/-- A cryptonews listing item dated `March 1, 2025`. -/
def c2Item : CnItem :=
  ⟨"https://cryptonews.com.au/news/example-article/", "Example", some ⟨2025, 3, 1, 0, 0, 0⟩⟩

/-- An AUSTRAC feed entry matching the keyword `crypto`. -/
def c3Entry : RssEntry :=
  ⟨"https://austrac.gov.au/mr/1", "Crypto report", "about a crypto exchange",
    some ⟨2025, 2, 3, 4, 5, 6⟩⟩

/-- Two pending ledger rows, as in the spec's notifier scenario. -/
def c4Rows : List Article :=
  [⟨"2025-01-01T00:00:00+00:00", "asic.gov.au", "https://x/1", "T1", ""⟩,
   ⟨"2025-01-02T00:00:00+00:00", "asic.gov.au", "https://x/2", "T2", ""⟩]

/-- Delivery oracle: the first send succeeds, the second fails. -/
def c4Send : Nat → Bool := fun i => i == 0

/-- An ASIC media release with a smaller URL sort key but a later date. -/
def asicPage1 : AsicPage :=
  ⟨"https://asic.gov.au/newsroom/media-releases/24-100mr-foo/",
    some ⟨2025, 6, 1, 0, 0, 0⟩, true, "A"⟩

/-- An ASIC media release with a larger URL sort key but an earlier date. -/
def asicPage2 : AsicPage :=
  ⟨"https://asic.gov.au/newsroom/media-releases/24-200mr-bar/",
    some ⟨2024, 2, 1, 0, 0, 0⟩, true, "B"⟩

/-- The run time of the dfcrc scraper in the C6 scenario. -/
def c6Now : Dt := ⟨2025, 7, 1, 12, 0, 0⟩

/-- A project-updates heading whose date text `31 Feb 2025` matches the date
regex but is rejected by `dateutil` (February has no 31st), with no pdf. -/
def c6Item : H3Item :=
  { title := "IAG Meeting 31 Feb 2025", titleDate := .unparseable, pdf := none, pdfTitle := "" }

/-- A ledger file whose header is malformed (no `source`/`url` columns). -/
def c7BadFile : CsvFile :=
  some [["date", "src", "link", "title", "done"],
        ["2025-01-01T00:00:00+00:00", "coindesk.com", "https://x/1", "Old", ""]]

/-- An extracted coindesk item whose url is already a row of `c7BadFile`. -/
def c7Item : CArticle := ⟨"https://x/1", "Old", ⟨2025, 1, 1, 0, 0, 0⟩⟩

/-- A cryptonews item for the C8 witness. -/
def c8CnItem : CnItem := ⟨"https://cryptonews.com.au/n/1", "T", some ⟨2025, 3, 1, 0, 0, 0⟩⟩

/-- The record `c8CnItem` becomes in the cryptonews batch. -/
def c8CnOut : Article × Dt :=
  (⟨"2025-03-01T00:00:00Z", "cryptonews.com.au", "https://cryptonews.com.au/n/1", "T", ""⟩,
    ⟨2025, 3, 1, 0, 0, 0⟩)

/-- A cointelegraph article for the C8 witness. -/
def c8CtArt : CArticle := ⟨"https://cointelegraph.com/n/1", "Australia news", ⟨2025, 4, 2, 0, 0, 0⟩⟩

/-! ## Supporting lemmas: the notifier -/

theorem length_updateFrom (send : Nat → Bool) :
    ∀ (i₀ : Nat) (l : List Article), (updateFrom send i₀ l).length = l.length
  | _, [] => rfl
  | i₀, _ :: rest => by
      simp only [updateFrom, List.length_cons, length_updateFrom send (i₀ + 1) rest]

theorem getD_updateFrom (send : Nat → Bool) :
    ∀ (l : List Article) (i₀ j : Nat), j < l.length →
      (updateFrom send i₀ l).getD j default =
        (if pendingB (l.getD j default) && send (i₀ + j) then
          { l.getD j default with done := CHECK_MARK } else l.getD j default)
  | [], _, _, h => absurd h (by simp)
  | a :: rest, i₀, 0, _ => by
      simp [updateFrom]
  | a :: rest, i₀, j + 1, h => by
      have ih := getD_updateFrom send rest (i₀ + 1) j (by simpa using h)
      have harith : i₀ + 1 + j = i₀ + (j + 1) := by omega
      rw [harith] at ih
      simpa only [updateFrom, List.getD_cons_succ] using ih

theorem le_of_mem_attemptsFrom :
    ∀ (l : List Article) (i₀ k : Nat), k ∈ attemptsFrom i₀ l → i₀ ≤ k
  | [], _, _, h => absurd h (by simp [attemptsFrom])
  | a :: rest, i₀, k, h => by
      by_cases hp : pendingB a
      · simp only [attemptsFrom, if_pos hp, List.mem_cons] at h
        rcases h with h | h
        · omega
        · have := le_of_mem_attemptsFrom rest (i₀ + 1) k h; omega
      · simp only [attemptsFrom, if_neg hp] at h
        have := le_of_mem_attemptsFrom rest (i₀ + 1) k h; omega

theorem mem_attemptsFrom_iff :
    ∀ (l : List Article) (i₀ j : Nat), j < l.length →
      ((i₀ + j) ∈ attemptsFrom i₀ l ↔ pendingB (l.getD j default) = true)
  | [], _, _, h => absurd h (by simp)
  | a :: rest, i₀, 0, _ => by
      constructor
      · intro hmem
        by_cases hp : pendingB a
        · simpa using hp
        · simp only [attemptsFrom, if_neg hp] at hmem
          have := le_of_mem_attemptsFrom rest (i₀ + 1) (i₀ + 0) hmem
          omega
      · intro hp
        simp only [List.getD_cons_zero] at hp
        simp [attemptsFrom, hp]
  | a :: rest, i₀, j + 1, h => by
      have ih := mem_attemptsFrom_iff rest (i₀ + 1) j (by simpa using h)
      have harith : i₀ + 1 + j = i₀ + (j + 1) := by omega
      rw [harith] at ih
      by_cases hp : pendingB a
      · simp only [attemptsFrom, if_pos hp, List.mem_cons, List.getD_cons_succ]
        rw [← ih]
        constructor
        · rintro (heq | hmem)
          · omega
          · exact hmem
        · intro hmem; right; exact hmem
      · simpa only [attemptsFrom, if_neg hp, List.getD_cons_succ] using ih

theorem mem_markedIndices_iff (send : Nat → Bool) (rows : List Article) (i : Nat)
    (hi : i < rows.length) :
    i ∈ markedIndices send rows ↔
      (pendingB (rows.getD i default) = true ∧ send i = true) := by
  have hmem := mem_attemptsFrom_iff rows 0 i hi
  rw [Nat.zero_add] at hmem
  unfold markedIndices
  rw [List.mem_filter, hmem]

theorem pendingB_of_done_empty {a : Article} (h : a.done = "") : pendingB a = true := by
  unfold pendingB
  rw [h]
  decide

theorem pendingB_of_done_check {a : Article} (h : a.done = CHECK_MARK) : pendingB a = false := by
  unfold pendingB
  rw [h]
  decide

/-! ## Claim C4: notifier round trip -/

/-- C4: after one notifier run over `rows` with delivery outcomes `send`, a
row that had `done=''` and whose delivery succeeded has `done='+'`; a row
that had `done=''` and whose delivery failed is unchanged; every pending row
is attempted (the attempt set does not depend on the outcome of other rows,
so one failure never prevents later attempts); and a row whose `done` is
`'+'` after the run is not in the attempt set of any subsequent run over the
updated rows, so it is never delivered again while the flag persists. -/
theorem C4_notifier_roundTrip (rows : List Article) (send : Nat → Bool) (i : Nat)
    (hi : i < rows.length) :
    ((rows.getD i default).done = "" → send i = true →
        ((updateFrom send 0 rows).getD i default).done = CHECK_MARK)
  ∧ ((rows.getD i default).done = "" → send i = false →
        (updateFrom send 0 rows).getD i default = rows.getD i default)
  ∧ ((rows.getD i default).done = "" → i ∈ attemptsFrom 0 rows)
  ∧ (((updateFrom send 0 rows).getD i default).done = CHECK_MARK →
        i ∉ attemptsFrom 0 (updateFrom send 0 rows)) := by
  have hupd := getD_updateFrom send rows 0 i hi
  rw [Nat.zero_add] at hupd
  refine ⟨?_, ?_, ?_, ?_⟩
  · intro hdone hsend
    rw [hupd, if_pos (by rw [pendingB_of_done_empty hdone, hsend]; rfl)]
  · intro hdone hsend
    rw [hupd, if_neg (by rw [hsend]; simp)]
  · intro hdone
    have hiff := mem_attemptsFrom_iff rows 0 i hi
    rw [Nat.zero_add] at hiff
    exact hiff.2 (pendingB_of_done_empty hdone)
  · intro hdone hmem
    have hlen : i < (updateFrom send 0 rows).length := by
      rw [length_updateFrom]; exact hi
    have hiff := mem_attemptsFrom_iff (updateFrom send 0 rows) 0 i hlen
    rw [Nat.zero_add] at hiff
    have := hiff.1 hmem
    rw [pendingB_of_done_check hdone] at this
    exact Bool.false_ne_true this

/-- Witness for C4 at the spec's scenario: two pending rows, the first
delivery succeeds, the second fails. -/
theorem C4_witness :
    ((updateFrom c4Send 0 c4Rows).getD 0 default).done = CHECK_MARK
  ∧ (updateFrom c4Send 0 c4Rows).getD 1 default = c4Rows.getD 1 default :=
  ⟨(C4_notifier_roundTrip c4Rows c4Send 0 (by decide)).1 rfl rfl,
   (C4_notifier_roundTrip c4Rows c4Send 1 (by decide)).2.1 rfl rfl⟩

/-! ## Claim C9: the rewrite only touches the done flag of delivered rows -/

/-- C9: the notifier's full rewrite keeps the number and order of rows (the
update is index-pointwise), never changes `date`, `source`, `url` or
`title`, and leaves every row that was not marked for update fully
unchanged. -/
theorem C9_notifier_frame (rows : List Article) (send : Nat → Bool) (i : Nat)
    (hi : i < rows.length) :
    (updateFrom send 0 rows).length = rows.length
  ∧ ((updateFrom send 0 rows).getD i default).date = (rows.getD i default).date
  ∧ ((updateFrom send 0 rows).getD i default).source = (rows.getD i default).source
  ∧ ((updateFrom send 0 rows).getD i default).url = (rows.getD i default).url
  ∧ ((updateFrom send 0 rows).getD i default).title = (rows.getD i default).title
  ∧ (i ∉ markedIndices send rows →
        (updateFrom send 0 rows).getD i default = rows.getD i default) := by
  have hupd := getD_updateFrom send rows 0 i hi
  rw [Nat.zero_add] at hupd
  refine ⟨length_updateFrom send 0 rows, ?_, ?_, ?_, ?_, ?_⟩
  · rw [hupd]; split <;> rfl
  · rw [hupd]; split <;> rfl
  · rw [hupd]; split <;> rfl
  · rw [hupd]; split <;> rfl
  · intro hnot
    have hcond : ¬ ((pendingB (rows.getD i default) && send i) = true) := by
      intro hc
      rw [Bool.and_eq_true] at hc
      exact hnot ((mem_markedIndices_iff send rows i hi).2 hc)
    rw [hupd, if_neg hcond]

/-- Witness for C9 at the two-row scenario. -/
theorem C9_witness :
    (updateFrom c4Send 0 c4Rows).length = c4Rows.length
  ∧ ((updateFrom c4Send 0 c4Rows).getD 0 default).url = (c4Rows.getD 0 default).url :=
  ⟨(C9_notifier_frame c4Rows c4Send 0 (by decide)).1,
   (C9_notifier_frame c4Rows c4Send 0 (by decide)).2.2.2.1⟩

/-! ## Claim C10: write only on success -/

/-- C10 counterexample: over an existing but empty ledger file, the notifier
writes the file (it initializes it with the header row) even though zero
deliveries succeeded, so the file does not stay byte-for-byte unchanged. -/
theorem C10_counterexample :
    process_csv (some []) (fun _ => false) = (some [ledgerHeader], true)
  ∧ (some [] : CsvFile) ≠ some [ledgerHeader] :=
  ⟨rfl, by decide⟩

/-- C10 (amended): on a ledger that exists, is non-empty and carries the
correct header, a run in which every attempted delivery fails performs no
write and leaves the file unchanged; only the missing/empty-file
initialization writes without a successful delivery. -/
theorem C10_amended (rows : List Row) (send : Nat → Bool)
    (hfail : ∀ i ∈ attemptsFrom 0 (rows.map rowToArticle), send i = false) :
    process_csv (some (ledgerHeader :: rows)) send = (some (ledgerHeader :: rows), false) := by
  simp only [process_csv]
  rw [if_neg (fun h => h rfl)]
  by_cases hrows : rows.isEmpty
  · rw [if_pos hrows]
  · rw [if_neg hrows]
    have hmarked : markedIndices send (rows.map rowToArticle) = [] := by
      unfold markedIndices
      rw [List.filter_eq_nil_iff]
      intro i hi
      rw [hfail i hi]
      simp
    simp only [hmarked, List.isEmpty_nil, if_pos]

/-- Witness for C10: one pending row, delivery fails, file untouched. -/
theorem C10_witness :
    process_csv
      (some (ledgerHeader ::
        [["2025-01-01T00:00:00+00:00", "asic.gov.au", "https://x/1", "T1", ""]]))
      (fun _ => false)
    = (some (ledgerHeader ::
        [["2025-01-01T00:00:00+00:00", "asic.gov.au", "https://x/1", "T1", ""]]), false) :=
  C10_amended _ (fun _ => false) (fun _ _ => rfl)

/-! ## Claim C7: malformed header handling -/

/-- C7 counterexample: the coindesk harvester, run over a ledger file whose
header lacks the `source`/`url` columns, does not abort — it appends a row
(here even a duplicate of an existing row), changing the file. -/
theorem C7_counterexample : coindeskRun c7BadFile [c7Item] ≠ c7BadFile := by decide

/-- C7 (amended): the notifier aborts without writing on a header mismatch;
the harvesters (coindesk-style `load_existing_urls`) merely report a
malformed header and continue with an empty existing-URL set, so their run
can still append to the ledger. -/
theorem C7_amended :
    (∀ (hdr : Row) (rows : List Row) (send : Nat → Bool), hdr ≠ ledgerHeader →
        process_csv (some (hdr :: rows)) send = (some (hdr :: rows), false))
  ∧ (∀ (rows : List Row) (src : String) (hdr : Row),
        ¬ ("url" ∈ hdr ∧ "source" ∈ hdr) →
        load_existing_urls (some (hdr :: rows)) src = []) := by
  constructor
  · intro hdr rows send h
    simp only [process_csv]
    rw [if_pos h]
  · intro rows src hdr h
    simp only [load_existing_urls]
    rw [if_neg h]

/-- Witness for C7 at the malformed file `c7BadFile`. -/
theorem C7_witness :
    process_csv
      (some (["date", "src", "link", "title", "done"] ::
        [["2025-01-01T00:00:00+00:00", "coindesk.com", "https://x/1", "Old", ""]]))
      (fun _ => true)
    = (some (["date", "src", "link", "title", "done"] ::
        [["2025-01-01T00:00:00+00:00", "coindesk.com", "https://x/1", "Old", ""]]), false)
  ∧ load_existing_urls
      (some (["date", "src", "link", "title", "done"] ::
        [["2025-01-01T00:00:00+00:00", "coindesk.com", "https://x/1", "Old", ""]]))
      "coindesk.com" = [] :=
  ⟨C7_amended.1 _ _ _ (by decide), C7_amended.2 _ _ _ (by decide)⟩

/-! ## Claim C5: batch ordering -/

theorem datesND_of_sorted :
    ∀ (l : List CArticle), List.Sorted cArtLe l →
      datesNonDecreasing (l.map CArticle.pd) = true
  | [], _ => rfl
  | [_], _ => rfl
  | a :: b :: rest, h => by
      rw [List.sorted_cons] at h
      have hab : cArtLe a b := h.1 b (List.mem_cons_self b rest)
      have htail := datesND_of_sorted (b :: rest) h.2
      simp only [List.map_cons] at htail ⊢
      show (a.pd.leb b.pd && datesNonDecreasing (b.pd :: rest.map CArticle.pd)) = true
      rw [Bool.and_eq_true]
      exact ⟨hab, htail⟩

/-- C5 (amended): the harvesters that sort their batch by parsed date
(coindesk's `append_to_csv` via `sortByDate`, and likewise cointelegraph,
austrac, dfcrc, web3au, cryptonews) write rows in non-decreasing date order;
the asic harvester instead appends in URL-sort-key order, which need not be
non-decreasing in date (see the counterexample). -/
theorem C5_amended (batch : List CArticle) :
    datesNonDecreasing ((sortByDate batch).map CArticle.pd) = true :=
  datesND_of_sorted _ (List.sorted_insertionSort cArtLe batch)

/-- C5 counterexample: two ASIC pages whose URL sort keys order them
`(24,100)`, `(24,200)` but whose dates are 2025-06-01 then 2024-02-01, so
the appended batch is not in non-decreasing date order. -/
theorem C5_counterexample :
    datesNonDecreasing ((asicBatch [asicPage2, asicPage1] true).map (fun x => x.2)) = false := by
  decide

/-! ## Claim C2: date serialization format -/

/-- C2: the cryptonews harvester appends its batch with dates serialized by
`strftime('%Y-%m-%dT%H:%M:%SZ')`; at a listing item dated `March 1, 2025`
the written date is `2025-03-01T00:00:00Z`, which does not match the spec's
regular expression (while the `+00:00` serialization of the other scripts
does). -/
theorem C2_cryptonews_date_format :
    (cryptonewsBatch [] [[c2Item]]).map (fun x => x.1.date) = ["2025-03-01T00:00:00Z"]
  ∧ matchesSpecDateRe "2025-03-01T00:00:00Z" = false
  ∧ matchesSpecDateRe "2025-03-01T00:00:00+00:00" = true := by decide

/-! ## Claim C6: unparseable dates -/

/-- C6: a project-updates heading whose date text matches the date regex but
cannot be parsed (`31 Feb 2025`), with no pdf link, is *not* dropped by the
dfcrc harvester: it reaches the append batch with the substituted current
UTC time `c6Now` as its date. -/
theorem C6_unparseable_date_appended :
    dfcrcAppendBatch c6Now [] [] [c6Item] =
      [{ date := "2025-07-01T12:00:00+00:00", source := "dfcrc.com.au/projects-cbdc-acacia",
         url := "https://dfcrc.com.au/projects-cbdc-acacia/",
         title := "DFCRC Acacia: IAG Meeting 31 Feb 2025", done := "" }]
  ∧ isoUtc c6Now = "2025-07-01T12:00:00+00:00" := by decide

/-! ## Claim C8: minimum-year cutoff -/

theorem year_of_mem_scrape {items : List CnItem} {x : Article × Dt}
    (h : x ∈ scrape_page items) : 2025 ≤ x.2.year := by
  unfold scrape_page at h
  rw [List.mem_filterMap] at h
  obtain ⟨it, _, hf⟩ := h
  split at hf
  · cases hf
  · split at hf
    · cases hf
    · rename_i d heq hy
      injection hf with hf
      rw [← hf]
      show 2025 ≤ d.year
      omega

theorem mem_of_cnFilterNew :
    ∀ (ex : List String) (l : List (Article × Dt)) (x : Article × Dt),
      x ∈ (cnFilterNew ex l).1 → x ∈ l
  | _, [], _, h => absurd h (by simp [cnFilterNew])
  | ex, y :: rest, x, h => by
      by_cases hm : y.1.url ∈ ex
      · simp only [cnFilterNew, if_pos hm] at h
        exact List.mem_cons_of_mem y (mem_of_cnFilterNew ex rest x h)
      · simp only [cnFilterNew, if_neg hm] at h
        rcases List.mem_cons.mp h with h | h
        · rw [h]; exact List.mem_cons_self y rest
        · exact List.mem_cons_of_mem y (mem_of_cnFilterNew (y.1.url :: ex) rest x h)

theorem mem_of_cnCollect :
    ∀ (ex : List String) (pages : List (List CnItem)) (x : Article × Dt),
      x ∈ cnCollect ex pages → ∃ page ∈ pages, x ∈ scrape_page page
  | _, [], _, h => absurd h (by simp [cnCollect])
  | ex, page :: rest, x, h => by
      simp only [cnCollect] at h
      rcases List.mem_append.mp h with h | h
      · exact ⟨page, List.mem_cons_self page rest, mem_of_cnFilterNew _ _ _ h⟩
      · obtain ⟨p, hp, hx⟩ := mem_of_cnCollect _ rest x h
        exact ⟨p, List.mem_cons_of_mem page hp, hx⟩

theorem mem_of_dropDupFirst :
    ∀ (l : List (Article × Dt)) (seen : List String) (x : Article × Dt),
      x ∈ dropDupFirst l seen → x ∈ l
  | [], _, _, h => absurd h (by simp [dropDupFirst])
  | y :: rest, seen, x, h => by
      by_cases hm : y.1.url ∈ seen
      · simp only [dropDupFirst, if_pos hm] at h
        exact List.mem_cons_of_mem y (mem_of_dropDupFirst rest seen x h)
      · simp only [dropDupFirst, if_neg hm] at h
        rcases List.mem_cons.mp h with h | h
        · rw [h]; exact List.mem_cons_self y rest
        · exact List.mem_cons_of_mem y (mem_of_dropDupFirst rest (y.1.url :: seen) x h)

/-- C8: for the cited harvesters (cryptonews and cointelegraph, both with
cutoff year 2025), no record of the batch handed to the CSV writer has a
date year below the cutoff — sub-cutoff items are discarded before they
reach the ledger. -/
theorem C8_year_cutoff :
    (∀ (existing : List String) (pages : List (List CnItem)) (x : Article × Dt),
        x ∈ cryptonewsBatch existing pages → 2025 ≤ x.2.year)
  ∧ (∀ (existing : List String) (arts : List CArticle) (a : CArticle),
        a ∈ cointelegraphBatch existing arts → 2025 ≤ a.pd.year) := by
  constructor
  · intro ex pages x h
    unfold cryptonewsBatch at h
    rw [List.mem_insertionSort] at h
    obtain ⟨p, _, hx⟩ := mem_of_cnCollect ex pages x (mem_of_dropDupFirst _ _ _ h)
    exact year_of_mem_scrape hx
  · intro ex arts a h
    unfold cointelegraphBatch sortByDate at h
    rw [List.mem_insertionSort, List.mem_filter] at h
    exact (of_decide_eq_true h.2).2.1

/-- Witness for C8 at one cryptonews item and one cointelegraph article,
both dated in 2025. -/
theorem C8_witness :
    c8CnOut ∈ cryptonewsBatch [] [[c8CnItem]] ∧ 2025 ≤ c8CnOut.2.year
  ∧ c8CtArt ∈ cointelegraphBatch [] [c8CtArt] ∧ 2025 ≤ c8CtArt.pd.year :=
  ⟨by decide, C8_year_cutoff.1 [] [[c8CnItem]] c8CnOut (by decide), by decide,
    C8_year_cutoff.2 [] [c8CtArt] c8CtArt (by decide)⟩

/-! ## Supporting lemmas: appended rows are never the header row -/

theorem coindeskRow_ne_header (src : String) (a : CArticle) :
    coindeskRow src a ≠ ledgerHeader := by
  intro h
  have h5 := congrArg (fun l : Row => l.getD 4 "") h
  simp only [coindeskRow, ledgerHeader, List.getD_cons_succ, List.getD_cons_zero] at h5
  exact absurd h5 (by decide)

theorem count_header_map_coindeskRow (src : String) (l : List CArticle) :
    (l.map (coindeskRow src)).count ledgerHeader = 0 := by
  rw [List.count_eq_zero]
  intro hmem
  rw [List.mem_map] at hmem
  obtain ⟨a, _, ha⟩ := hmem
  exact coindeskRow_ne_header src a ha

theorem toRow_ne_header_of_done {a : Article} (h : a.done = "") :
    a.toRow ≠ ledgerHeader := by
  intro heq
  have h5 := congrArg (fun l : Row => l.getD 4 "") heq
  simp only [Article.toRow, ledgerHeader, List.getD_cons_succ, List.getD_cons_zero] at h5
  rw [h] at h5
  exact absurd h5 (by decide)

theorem austracItem_done {ex kws : List String} {e : RssEntry} {x : Article × Dt}
    (h : austracItem ex kws e = some x) : x.1.done = "" := by
  unfold austracItem at h
  split at h
  · cases h
  · split_ifs at h
    · injection h with h
      rw [← h]

theorem count_header_austrac_rows (ex kws : List String) (entries : List RssEntry) :
    ((List.insertionSort sndLe (entries.filterMap (austracItem ex kws))).map
      (fun x => x.1.toRow)).count ledgerHeader = 0 := by
  rw [List.count_eq_zero]
  intro hmem
  rw [List.mem_map] at hmem
  obtain ⟨x, hx, hrow⟩ := hmem
  rw [List.mem_insertionSort, List.mem_filterMap] at hx
  obtain ⟨e, _, he⟩ := hx
  exact toRow_ne_header_of_done (austracItem_done he) hrow

theorem sortByDate_length (l : List CArticle) : (sortByDate l).length = l.length :=
  (List.perm_insertionSort cArtLe l).length_eq

theorem austracLoad_fst : ∀ rows : List Row, (austracLoad (some rows)).1 = some rows
  | [] => rfl
  | hdr :: rest => by
      simp only [austracLoad]
      split_ifs <;> rfl

/-! ## Claim C3: append-only, header exactly once -/

/-- C3 (amended): appends preserve the prior file contents as a prefix, in
order, for both the coindesk-style `append_to_csv` and the austrac run; the
coindesk append writes the header exactly once when the file was missing or
empty and a non-empty batch is written, and never otherwise; the austrac
harvester, however, writes the header only when the file was *missing* — a
run over an existing empty file appends data rows with no header at all. -/
theorem C3_amended :
    (∀ (file : CsvFile) (batch : List CArticle) (src : String),
        (file.getD []) <+: ((append_to_csv file batch src).getD [])
      ∧ ((append_to_csv file batch src).getD []).count ledgerHeader =
          (file.getD []).count ledgerHeader +
            (if (file.getD []).isEmpty = true ∧ (sortByDate batch).isEmpty = false
              then 1 else 0))
  ∧ (∀ (file : CsvFile) (entries : List RssEntry) (kws : List String),
        (file.getD []) <+: ((austracRun file entries kws).getD []))
  ∧ (∀ (entries : List RssEntry) (kws : List String),
        ((austracRun none entries kws).getD []).count ledgerHeader = 1
      ∧ ((austracRun (some []) entries kws).getD []).count ledgerHeader = 0) := by
  refine ⟨?_, ?_, ?_⟩
  · intro file batch src
    by_cases hb : (sortByDate batch).isEmpty
    · have happ : append_to_csv file batch src = file := by
        simp only [append_to_csv]
        rw [if_pos hb]
      rw [happ]
      refine ⟨List.prefix_refl _, ?_⟩
      rw [if_neg (fun hc => by rw [hb] at hc; exact Bool.true_eq_false.mp hc.2)]
      omega
    · have happ : append_to_csv file batch src =
          some ((file.getD [])
            ++ ((if (file.getD []).isEmpty then [ledgerHeader] else [])
                  ++ (sortByDate batch).map (coindeskRow src))) := by
        simp only [append_to_csv]
        rw [if_neg hb, List.append_assoc]
      rw [happ]
      refine ⟨List.prefix_append _ _, ?_⟩
      rw [Option.getD_some, List.count_append, List.count_append,
        count_header_map_coindeskRow]
      by_cases hc : (file.getD []).isEmpty
      · rw [if_pos hc, if_pos ⟨hc, Bool.not_eq_true _ ▸ hb⟩]
        simp [ledgerHeader]
      · rw [if_neg hc, if_neg (fun hcc => hc hcc.1)]
        simp
  · intro file entries kws
    cases file with
    | none => exact List.nil_prefix
    | some rows =>
        simp only [austracRun, austracLoad_fst rows]
        split
        · exact List.prefix_refl _
        · rw [Option.getD_some, Option.getD_some]
          exact List.prefix_append _ _
  · intro entries kws
    constructor
    · simp only [austracRun]
      have h2 : (austracLoad none).2 = [] := rfl
      have h1 : (austracLoad none).1 = some [ledgerHeader] := rfl
      rw [h1, h2]
      split
      · simp [ledgerHeader]
      · rw [Option.getD_some, Option.getD_some, List.count_append,
          count_header_austrac_rows]
        simp [ledgerHeader]
    · simp only [austracRun]
      have h2 : (austracLoad (some [])).2 = [] := rfl
      have h1 : (austracLoad (some [])).1 = some [] := rfl
      rw [h1, h2]
      split
      · simp
      · rw [Option.getD_some, Option.getD_some, List.count_append,
          count_header_austrac_rows]
        simp

/-- C3 counterexample: the austrac harvester run over an existing but empty
ledger file appends a data row and never writes the header (its
`load_existing_urls` creates the header only when the file does not exist),
refuting "the header row is written exactly once, only when the file was
missing or empty". -/
theorem C3_counterexample :
    austracRun (some []) [c3Entry] ["crypto"] =
      some [["2025-02-03T04:05:06+00:00", "austrac.gov.au",
             "https://austrac.gov.au/mr/1", "Crypto report", ""]]
  ∧ ((austracRun (some []) [c3Entry] ["crypto"]).getD []).count ledgerHeader = 0 := by
  decide

/-! ## Supporting lemmas: reading the existing-URL set -/

theorem dictGet_hdr_source (r : Row) : dictGet ledgerHeader r "source" = r.get? 1 := by
  unfold dictGet
  rw [if_pos (by decide : ("source" : String) ∈ ledgerHeader),
    (by decide : ledgerHeader.indexOf "source" = 1)]

theorem dictGet_hdr_url (r : Row) : dictGet ledgerHeader r "url" = r.get? 2 := by
  unfold dictGet
  rw [if_pos (by decide : ("url" : String) ∈ ledgerHeader),
    (by decide : ledgerHeader.indexOf "url" = 2)]

theorem loadRow_eq_some_iff {src u : String} {r : Row} :
    loadRow src ledgerHeader r = some u ↔
      r.get? 1 = some src ∧ r.get? 2 = some u ∧ u ≠ "" := by
  unfold loadRow
  rw [dictGet_hdr_source, dictGet_hdr_url]
  constructor
  · intro h
    split_ifs at h with hc
    obtain ⟨hs, hu⟩ := hc
    rw [h] at hu
    rw [Option.getD_some] at hu
    exact ⟨hs, h, hu⟩
  · rintro ⟨h1, h2, hu⟩
    have hc : r.get? 1 = some src ∧ (r.get? 2).getD "" ≠ "" := by
      refine ⟨h1, ?_⟩
      rw [h2, Option.getD_some]
      exact hu
    rw [if_pos hc]
    exact h2

theorem load_some_header (rows : List Row) (src : String) :
    load_existing_urls (some (ledgerHeader :: rows)) src =
      rows.filterMap (loadRow src ledgerHeader) := by
  simp only [load_existing_urls]
  rw [if_pos (by decide)]

theorem mem_coindeskNewArticles {existing : List String} {ex : List CArticle} {a : CArticle} :
    a ∈ coindeskNewArticles existing ex ↔
      a ∈ ex ∧ a.url ≠ "" ∧ a.url ∉ existing ∧ 2025 ≤ a.pd.year := by
  unfold coindeskNewArticles
  rw [List.mem_filter, List.mem_filter]
  constructor
  · rintro ⟨⟨hmem, h1⟩, h2⟩
    have h1x := of_decide_eq_true h1
    have h2x := of_decide_eq_true h2
    exact ⟨hmem, h1x.1, h1x.2, h2x⟩
  · rintro ⟨hmem, hu, hn, hy⟩
    exact ⟨⟨hmem, decide_eq_true ⟨hu, hn⟩⟩, decide_eq_true hy⟩

theorem url_mem_load {rowsAll : List Row} {a : CArticle} (hurl : a.url ≠ "")
    (hr : coindeskRow "coindesk.com" a ∈ rowsAll) :
    a.url ∈ load_existing_urls (some (ledgerHeader :: rowsAll)) "coindesk.com" := by
  rw [load_some_header, List.mem_filterMap]
  exact ⟨coindeskRow "coindesk.com" a, hr, by rw [loadRow_eq_some_iff]; exact ⟨rfl, rfl, hurl⟩⟩

theorem load_mono {rows new : List Row} {src u : String}
    (h : u ∈ load_existing_urls (some (ledgerHeader :: rows)) src) :
    u ∈ load_existing_urls (some (ledgerHeader :: (rows ++ new))) src := by
  rw [load_some_header] at h
  rw [load_some_header, List.filterMap_append, List.mem_append]
  exact Or.inl h

theorem load_of_rowKey {r : Row} {src u : String}
    (hk : rowKey r = (src, u)) (hsrc : src ≠ "") (hu : u ≠ "") :
    loadRow src ledgerHeader r = some u := by
  rw [loadRow_eq_some_iff]
  unfold rowKey at hk
  have h1 : r.getD 1 "" = src := congrArg Prod.fst hk
  have h2 : r.getD 2 "" = u := congrArg Prod.snd hk
  rw [List.getD_eq_getElem?_getD] at h1 h2
  refine ⟨?_, ?_, hu⟩
  · rw [List.get?_eq_getElem?]
    cases hg : r[1]? with
    | none => rw [hg] at h1; exact absurd h1 (by simpa using hsrc.symm)
    | some v => rw [hg] at h1; rw [Option.getD_some] at h1; rw [h1]
  · rw [List.get?_eq_getElem?]
    cases hg : r[2]? with
    | none => rw [hg] at h2; exact absurd h2 (by simpa using hu.symm)
    | some v => rw [hg] at h2; rw [Option.getD_some] at h2; rw [h2]

theorem ledgerPairs_some (rows : List Row) :
    ledgerPairs (some rows) = (rows.filter (fun r => r ≠ ledgerHeader)).map rowKey := rfl

/-! ## Supporting lemmas: the shape of one coindesk run -/

theorem sortByDate_isEmpty_false {l : List CArticle} (h : l.isEmpty = false) :
    (sortByDate l).isEmpty = false := by
  cases he : (sortByDate l).isEmpty
  · rfl
  · exfalso
    rw [List.isEmpty_iff] at he
    have hlen := sortByDate_length l
    rw [he] at hlen
    have := List.length_eq_zero.mp hlen.symm
    rw [this] at h
    cases h

theorem coindeskRun_eq_of_wf (file : CsvFile) (ex : List CArticle) (hwf : ledgerWF file)
    (hne : (coindeskNewArticles (load_existing_urls file "coindesk.com") ex).isEmpty = false) :
    ∃ rows₀ : List Row,
      load_existing_urls file "coindesk.com"
          = rows₀.filterMap (loadRow "coindesk.com" ledgerHeader)
      ∧ ledgerPairs file = (rows₀.filter (fun r => r ≠ ledgerHeader)).map rowKey
      ∧ coindeskRun file ex = some (ledgerHeader :: (rows₀ ++
          (sortByDate (coindeskNewArticles (load_existing_urls file "coindesk.com") ex)).map
            (coindeskRow "coindesk.com"))) := by
  have hsorted := sortByDate_isEmpty_false hne
  rcases hwf with hwf | hwf | ⟨rows, hwf⟩
  · subst hwf
    refine ⟨[], rfl, rfl, ?_⟩
    simp only [coindeskRun]
    rw [if_neg (by rw [hne]; exact Bool.false_ne_true)]
    simp only [append_to_csv]
    rw [if_neg (by rw [hsorted]; exact Bool.false_ne_true)]
    simp
  · subst hwf
    refine ⟨[], rfl, rfl, ?_⟩
    simp only [coindeskRun]
    rw [if_neg (by rw [hne]; exact Bool.false_ne_true)]
    simp only [append_to_csv]
    rw [if_neg (by rw [hsorted]; exact Bool.false_ne_true)]
    simp
  · subst hwf
    refine ⟨rows, load_some_header rows _, ?_, ?_⟩
    · rw [ledgerPairs_some, List.filter_cons_of_neg (by simp)]
    · simp only [coindeskRun]
      rw [if_neg (by rw [hne]; exact Bool.false_ne_true)]
      simp only [append_to_csv]
      rw [if_neg (by rw [hsorted]; exact Bool.false_ne_true)]
      simp

/-- Every extracted item with a truthy url and a year within the cutoff has
its url in the existing set loaded after one (appending) run. -/
theorem url_mem_load_after_run (rows₀ : List Row) (ex : List CArticle) (a : CArticle)
    (hexist : load_existing_urls (some (ledgerHeader :: rows₀)) "coindesk.com"
        = rows₀.filterMap (loadRow "coindesk.com" ledgerHeader))
    (ha : a ∈ ex) (hurl : a.url ≠ "") (hy : 2025 ≤ a.pd.year)
    (existing₁ : List String)
    (hload : existing₁ = rows₀.filterMap (loadRow "coindesk.com" ledgerHeader)) :
    a.url ∈ load_existing_urls (some (ledgerHeader :: (rows₀ ++
      (sortByDate (coindeskNewArticles existing₁ ex)).map (coindeskRow "coindesk.com"))))
      "coindesk.com" := by
  by_cases hin : a.url ∈ existing₁
  · apply load_mono
    rw [hexist, ← hload]
    exact hin
  · apply url_mem_load hurl
    apply List.mem_append_right
    apply List.mem_map_of_mem
    rw [sortByDate, List.mem_insertionSort, mem_coindeskNewArticles]
    exact ⟨ha, hurl, hin, hy⟩

theorem coindeskRun_stable (file : CsvFile) (ex : List CArticle) (hwf : ledgerWF file) :
    coindeskRun (coindeskRun file ex) ex = coindeskRun file ex := by
  by_cases hf : (coindeskNewArticles (load_existing_urls file "coindesk.com") ex).isEmpty
  · have h1 : coindeskRun file ex = file := by
      simp only [coindeskRun]
      rw [if_pos hf]
    rw [h1]
    exact h1
  · rw [Bool.not_eq_true] at hf
    obtain ⟨rows₀, hload, _, hrun⟩ := coindeskRun_eq_of_wf file ex hwf hf
    have hexist : load_existing_urls (some (ledgerHeader :: rows₀)) "coindesk.com"
        = rows₀.filterMap (loadRow "coindesk.com" ledgerHeader) := load_some_header rows₀ _
    rw [hrun]
    simp only [coindeskRun]
    rw [if_pos ?hempty]
    case hempty =>
      rw [List.isEmpty_iff, List.eq_nil_iff_forall_not_mem]
      intro a ha
      rw [mem_coindeskNewArticles] at ha
      obtain ⟨haex, hurl, hnot, hy⟩ := ha
      exact hnot (url_mem_load_after_run rows₀ ex a hexist haex hurl hy _ hload)

theorem nodup_pairs_coindeskRun (file : CsvFile) (ex : List CArticle) (hwf : ledgerWF file)
    (hpairs : (ledgerPairs file).Nodup) (hex : (ex.map CArticle.url).Nodup) :
    (ledgerPairs (coindeskRun file ex)).Nodup := by
  by_cases hf : (coindeskNewArticles (load_existing_urls file "coindesk.com") ex).isEmpty
  · have h1 : coindeskRun file ex = file := by
      simp only [coindeskRun]
      rw [if_pos hf]
    rw [h1]
    exact hpairs
  · rw [Bool.not_eq_true] at hf
    obtain ⟨rows₀, hload, hpe, hrun⟩ := coindeskRun_eq_of_wf file ex hwf hf
    rw [hrun, ledgerPairs_some, List.filter_cons_of_neg (by simp), List.filter_append,
      List.map_append]
    rw [hpe] at hpairs
    have hself : ((sortByDate (coindeskNewArticles
          (load_existing_urls file "coindesk.com") ex)).map
            (coindeskRow "coindesk.com")).filter (fun r => r ≠ ledgerHeader)
        = (sortByDate (coindeskNewArticles
            (load_existing_urls file "coindesk.com") ex)).map (coindeskRow "coindesk.com") := by
      rw [List.filter_eq_self]
      intro r hr
      rw [List.mem_map] at hr
      obtain ⟨a, _, ha⟩ := hr
      rw [decide_eq_true_iff, ← ha]
      exact coindeskRow_ne_header "coindesk.com" a
    rw [hself, List.nodup_append]
    refine ⟨hpairs, ?_, ?_⟩
    · rw [List.map_map]
      have hcomp : (rowKey ∘ coindeskRow "coindesk.com")
          = (fun u => ("coindesk.com", u)) ∘ CArticle.url := by
        funext a
        rfl
      rw [hcomp, ← List.map_map]
      apply List.Nodup.map (fun u v huv => congrArg Prod.snd huv)
      have hperm := (List.perm_insertionSort cArtLe
        (coindeskNewArticles (load_existing_urls file "coindesk.com") ex)).map CArticle.url
      apply hperm.symm.nodup
      apply List.Nodup.sublist _ hex
      apply List.Sublist.map
      exact ((List.filter_sublist _).trans (List.filter_sublist _))
    · intro k hk1 hk2
      rw [List.mem_map] at hk1 hk2
      obtain ⟨r, hr, hkr⟩ := hk1
      obtain ⟨row2, hrow2, hkrow2⟩ := hk2
      rw [List.mem_map] at hrow2
      obtain ⟨a, hasort, harow⟩ := hrow2
      rw [sortByDate, List.mem_insertionSort, mem_coindeskNewArticles] at hasort
      obtain ⟨_, hurl, hnot, _⟩ := hasort
      have hkey : rowKey r = ("coindesk.com", a.url) := by
        rw [hkr, ← hkrow2, ← harow]
        rfl
      apply hnot
      rw [hload, List.mem_filterMap]
      refine ⟨r, List.mem_of_mem_filter hr, ?_⟩
      exact load_of_rowKey hkey (by decide) hurl

/-! ## Claim C1: rerun deduplication -/

/-- C1 counterexample: the coindesk harvester has no already-queued-this-run
check, so a listing page that contains the same article twice produces two
ledger rows with the same `(source, url)` after a single run (and the
duplicate persists under a second run over the same data). -/
theorem C1_counterexample :
    ¬ (ledgerPairs (coindeskRun (coindeskRun none [c1Item, c1Item]) [c1Item, c1Item])).Nodup := by
  decide

/-- C1 (amended): provided the urls of a run's extracted items are pairwise
distinct, running the coindesk harvester twice over the same extracted data,
starting from a structurally valid ledger with no duplicate `(source, url)`
pair, leaves the ledger without duplicate `(source, url)` pairs: the run
loads the set of url values of rows whose source is `coindesk.com` and never
appends an extracted item whose url is in that set — but nothing guards
against duplicates within one extraction batch. -/
theorem C1_amended (file : CsvFile) (ex : List CArticle) (hwf : ledgerWF file)
    (hpairs : (ledgerPairs file).Nodup) (hex : (ex.map CArticle.url).Nodup) :
    (ledgerPairs (coindeskRun (coindeskRun file ex) ex)).Nodup := by
  rw [coindeskRun_stable file ex hwf]
  exact nodup_pairs_coindeskRun file ex hwf hpairs hex

/-- Witness for C1: one extracted item, absent ledger. -/
theorem C1_witness :
    (ledgerPairs (coindeskRun (coindeskRun none [c1Item]) [c1Item])).Nodup :=
  C1_amended none [c1Item] (Or.inl rfl) (by decide) (by decide)

end OzCrypto
